import Mathlib

/-!
Shallow embedding of the goloop/kind repository.

Two source files are embedded:
* src/tag/tag.go — the `Tag` bitset domain (flag constants, validity,
  `Contains`, `Set`/`Add`/`Delete`, `All`/`Any`, category predicates);
* src/kind.go (the current, tag-based generation) — the `Kind` wrapper,
  the recursive classifier `checkComplexTypes`, the entry point `Of`,
  and the predicate / accessor surface.

Go's `uint64` is modelled by `Nat`: every `Tag` value manipulated by the
source stays far below `2^64` (flags are single bits below `2^30`, and the
mutating loops only add flags not already contained), so `&`, `^`, `|`,
`+`, `-`, `<<`, `>>` on `uint64` coincide with the `Nat` operations here.
Go values are modelled by the inductive `GoVal`, carrying exactly the
information the classifier and the accessors consult: the reflected type
shape and, for scalars, the payload.  A Go run-time panic (the single-value
type assertion `k.value.(T)` failing) is modelled by `Option.none`.
-/

set_option maxRecDepth 8000

/-- Go: `type Tag uint64` (src/tag/tag.go). -/
abbrev Tag := Nat

/-- Go: `Nil Tag = 1 << iota` — bit 0. -/
def Tag.nil : Tag := 2 ^ 0

/-- Go: `Pointer` — bit 1. -/
def Tag.pointer : Tag := 2 ^ 1

/-- Go: `Array` — bit 2. -/
def Tag.array : Tag := 2 ^ 2

/-- Go: `ArrayOfArrays` — bit 3. -/
def Tag.arrayOfArrays : Tag := 2 ^ 3

/-- Go: `ArrayOfSlices` — bit 4. -/
def Tag.arrayOfSlices : Tag := 2 ^ 4

/-- Go: `Slice` — bit 5. -/
def Tag.slice : Tag := 2 ^ 5

/-- Go: `SliceOfSlices` — bit 6. -/
def Tag.sliceOfSlices : Tag := 2 ^ 6

/-- Go: `SliceOfArrays` — bit 7. -/
def Tag.sliceOfArrays : Tag := 2 ^ 7

/-- Go: `Struct` — bit 8. -/
def Tag.struct : Tag := 2 ^ 8

/-- Go: `Map` — bit 9. -/
def Tag.map : Tag := 2 ^ 9

/-- Go: `Func` — bit 10. -/
def Tag.func : Tag := 2 ^ 10

/-- Go: `Chan` — bit 11. -/
def Tag.chan : Tag := 2 ^ 11

/-- Go: `Bool` — bit 12. -/
def Tag.bool : Tag := 2 ^ 12

/-- Go: `Int` — bit 13. -/
def Tag.int : Tag := 2 ^ 13

/-- Go: `Int8` — bit 14. -/
def Tag.int8 : Tag := 2 ^ 14

/-- Go: `Int16` — bit 15. -/
def Tag.int16 : Tag := 2 ^ 15

/-- Go: `Int32` — bit 16. -/
def Tag.int32 : Tag := 2 ^ 16

/-- Go: `Int64` — bit 17. -/
def Tag.int64 : Tag := 2 ^ 17

/-- Go: `Uint` — bit 18. -/
def Tag.uint : Tag := 2 ^ 18

/-- Go: `Uint8` — bit 19. -/
def Tag.uint8 : Tag := 2 ^ 19

/-- Go: `Uint16` — bit 20. -/
def Tag.uint16 : Tag := 2 ^ 20

/-- Go: `Uint32` — bit 21. -/
def Tag.uint32 : Tag := 2 ^ 21

/-- Go: `Uint64` — bit 22. -/
def Tag.uint64 : Tag := 2 ^ 22

/-- Go: `Uintptr` — bit 23. -/
def Tag.uintptr : Tag := 2 ^ 23

/-- Go: `Float32` — bit 24. -/
def Tag.float32 : Tag := 2 ^ 24

/-- Go: `Float64` — bit 25. -/
def Tag.float64 : Tag := 2 ^ 25

/-- Go: `Complex64` — bit 26. -/
def Tag.complex64 : Tag := 2 ^ 26

/-- Go: `Complex128` — bit 27. -/
def Tag.complex128 : Tag := 2 ^ 27

/-- Go: `String` — bit 28. -/
def Tag.string : Tag := 2 ^ 28

/-- Go: `UnsafePointer` — bit 29, the last defined flag. -/
def Tag.unsafePtr : Tag := 2 ^ 29

/-- Go: `overflowTagValue Tag = (1 << iota)` — bit 30, one past the last
defined flag. -/
def overflowTagValue : Tag := 2 ^ 30

/-- One iteration of the loop in Go's `IsValid`: with `tg = 1 << i` the
iteration for that loop variable removes `tg` from `copy` when present
(`copy ^= tag` under `copy&tag == tag`). -/
def validClearStep (copy i : Nat) : Nat :=
  let tg : Tag := 1 <<< i
  if copy &&& tg == tg then copy ^^^ tg else copy

/-- Go: `func (t *Tag) IsValid() bool`.  The source's
`for tag := Tag(1); tag < overflowTagValue; tag <<= 1` loop runs exactly for
`tag = 1 <<< i` with `i < 30`, rendered here as a fold over `List.range 30`;
each iteration removes `tag` from `copy` when present, and the value is valid
iff every bit was matched (`copy == 0` at the end).  Zero is valid. -/
def Tag.IsValid (t : Tag) : Bool :=
  if t = 0 then true
  else ((List.range 30).foldl validClearStep t) == 0

/-- Models Go's `math/bits.OnesCount` on `uint` (64-bit): the number of set
bits of the argument, i.e. the number of positions `i < 64` with bit `i`
set (every `Tag` the source manipulates fits in a `uint64`). -/
def onesCount (n : Nat) : Nat :=
  ((List.range 64).map fun i => (n.testBit i).toNat).sum

/-- Go: `func (t *Tag) IsSingle() bool` — exactly one set bit and
`*t <= Tag(overflowTagValue+1)>>1` (that bound is `2^29`). -/
def Tag.IsSingle (t : Tag) : Bool :=
  onesCount t == 1 && t ≤ (overflowTagValue + 1) >>> 1

/-- Go: `func (t *Tag) IsComplex() bool` — nonzero and not single. -/
def Tag.IsComplex (t : Tag) : Bool :=
  if t = 0 then false else !(Tag.IsSingle t)

/-- Go: `func (t *Tag) Contains(flag Tag) (bool, error)`; the `Option String`
holds the message of the returned `error`, `none` meaning a nil error. -/
def Tag.Contains (t flag : Tag) : Bool × Option String :=
  if flag = 0 then (false, some "flag cannot be zero")
  else if !(Tag.IsValid flag) then (false, some "incorrect flag value")
  else if !(Tag.IsValid t) then (false, some "the object is damaged")
  else (t &&& flag == flag, none)

/-- Go: `func (t *Tag) Has(tag Tag) bool` — `Contains` with the error dropped. -/
def Tag.Has (t flag : Tag) : Bool := (Tag.Contains t flag).1

/-- Result of a Go mutating method on `*Tag`: the returned `Tag`, the value
stored in the receiver after the call, and the returned error's message. -/
structure TagResult where
  ret : Tag
  state : Tag
  err : Option String
deriving DecidableEq

/-- The shared loop body of Go's `Set` and `Add` (they differ only in the
start value of the accumulator `r`): each flag failing `IsValid` returns the
receiver `t` unchanged with an error; otherwise the flag is added to `r`
(by `r += flag`) unless `r` already contains it; at the end the receiver is
set to `r` which is also returned. -/
def Tag.setAddLoop (t r : Tag) : List Tag → TagResult
  | [] => ⟨r, r, none⟩
  | f :: fs =>
    if !(Tag.IsValid f) then
      ⟨t, t, some ("the " ++ toString f ++ " is invalid flag value")⟩
    else
      Tag.setAddLoop t (if (Tag.Contains r f).1 then r else r + f) fs

/-- Go: `func (t *Tag) Set(flags ...Tag) (Tag, error)` — accumulator starts
at zero, discarding the receiver's previous value. -/
def Tag.Set (t : Tag) (flags : List Tag) : TagResult :=
  Tag.setAddLoop t 0 flags

/-- Go: `func (t *Tag) Add(flags ...Tag) (Tag, error)` — accumulator starts
at the receiver's current value. -/
def Tag.Add (t : Tag) (flags : List Tag) : TagResult :=
  Tag.setAddLoop t t flags

/-- The loop of Go's `Delete`: each flag failing `IsValid` returns the
receiver unchanged with an error; otherwise the flag is removed from the
accumulator (by `r -= flag`) when contained. -/
def Tag.deleteLoop (t r : Tag) : List Tag → TagResult
  | [] => ⟨r, r, none⟩
  | f :: fs =>
    if !(Tag.IsValid f) then
      ⟨t, t, some ("the " ++ toString f ++ " is invalid flag value")⟩
    else
      Tag.deleteLoop t (if (Tag.Contains r f).1 then r - f else r) fs

/-- Go: `func (t *Tag) Delete(flags ...Tag) (Tag, error)`. -/
def Tag.Delete (t : Tag) (flags : List Tag) : TagResult :=
  Tag.deleteLoop t t flags

/-- Go: `func (t *Tag) All(flags ...Tag) bool`. -/
def Tag.All (t : Tag) (flags : List Tag) : Bool :=
  flags.all fun f => (Tag.Contains t f).1

/-- Go: `func (t *Tag) Any(flags ...Tag) bool`. -/
def Tag.Any (t : Tag) (flags : List Tag) : Bool :=
  flags.any fun f => (Tag.Contains t f).1

/-- Go types as seen through the `reflect` facts the classifier consults:
`Kind()` (the constructor), `Elem()`, `Key()` and `String()`.  The closed
constructor set mirrors the reflect kinds reachable through `kind.Of`
(interfaces are unreachable, per the comment in src/kind.go). -/
inductive GoType where
  | tBool | tString
  | tInt | tInt8 | tInt16 | tInt32 | tInt64
  | tUint | tUint8 | tUint16 | tUint32 | tUint64
  | tUintptr | tFloat32 | tFloat64 | tComplex64 | tComplex128
  | tPtr (elem : GoType)
  | tSlice (elem : GoType)
  | tArray (len : Nat) (elem : GoType)
  | tMap (key : GoType) (value : GoType)
  | tChan (elem : GoType)
  | tStruct (goName : String)
  | tFunc
deriving DecidableEq

/-- Go's `reflect.Type.String()`: the canonical textual rendering of a type
(`"[]int32"`, `"map[string]int"`, `"*int"`, ...). -/
def typeName : GoType → String
  | .tBool => "bool"
  | .tString => "string"
  | .tInt => "int"
  | .tInt8 => "int8"
  | .tInt16 => "int16"
  | .tInt32 => "int32"
  | .tInt64 => "int64"
  | .tUint => "uint"
  | .tUint8 => "uint8"
  | .tUint16 => "uint16"
  | .tUint32 => "uint32"
  | .tUint64 => "uint64"
  | .tUintptr => "uintptr"
  | .tFloat32 => "float32"
  | .tFloat64 => "float64"
  | .tComplex64 => "complex64"
  | .tComplex128 => "complex128"
  | .tPtr e => "*" ++ typeName e
  | .tSlice e => "[]" ++ typeName e
  | .tArray n e => "[" ++ toString n ++ "]" ++ typeName e
  | .tMap ky vl => "map[" ++ typeName ky ++ "]" ++ typeName vl
  | .tChan e => "chan " ++ typeName e
  | .tStruct nm => nm
  | .tFunc => "func()"

/-- Go values, carrying exactly what `kind.Of` and the accessors consult:
the reflected type and, for scalars, the payload.  `vNil` is the nil
interface.  Container values carry their element/key/value types (the
classifier never reads container contents).  Float and complex payloads are
carried as their machine bit patterns (no arithmetic is ever performed on
them; the accessors only move them around). -/
inductive GoVal where
  | vNil
  | vBool (b : Bool)
  | vString (s : String)
  | vInt (n : Int) | vInt8 (n : Int) | vInt16 (n : Int) | vInt32 (n : Int) | vInt64 (n : Int)
  | vUint (n : Nat) | vUint8 (n : Nat) | vUint16 (n : Nat) | vUint32 (n : Nat) | vUint64 (n : Nat)
  | vUintptr (n : Nat)
  | vFloat32 (bits : Nat) | vFloat64 (bits : Nat)
  | vComplex64 (bits : Nat) | vComplex128 (bits : Nat)
  | vPtr (elem : GoType)
  | vSlice (elem : GoType)
  | vArray (len : Nat) (elem : GoType)
  | vMap (key : GoType) (value : GoType)
  | vChan (elem : GoType)
  | vStruct (goName : String)
  | vFunc
deriving DecidableEq

/-- Go's `reflect.TypeOf` on a non-nil value.  (`kind.Of` never calls it on
the nil interface; the `vNil` equation is dead code kept total.) -/
def GoVal.typeOf : GoVal → GoType
  | .vNil => .tStruct "nil"
  | .vBool _ => .tBool
  | .vString _ => .tString
  | .vInt _ => .tInt
  | .vInt8 _ => .tInt8
  | .vInt16 _ => .tInt16
  | .vInt32 _ => .tInt32
  | .vInt64 _ => .tInt64
  | .vUint _ => .tUint
  | .vUint8 _ => .tUint8
  | .vUint16 _ => .tUint16
  | .vUint32 _ => .tUint32
  | .vUint64 _ => .tUint64
  | .vUintptr _ => .tUintptr
  | .vFloat32 _ => .tFloat32
  | .vFloat64 _ => .tFloat64
  | .vComplex64 _ => .tComplex64
  | .vComplex128 _ => .tComplex128
  | .vPtr e => .tPtr e
  | .vSlice e => .tSlice e
  | .vArray n e => .tArray n e
  | .vMap ky vl => .tMap ky vl
  | .vChan e => .tChan e
  | .vStruct nm => .tStruct nm
  | .vFunc => .tFunc

/-- Go: `type Kind struct` of src/kind.go (current generation): name,
retained original value, optional map key/value child wrappers (Go nil
pointers modelled by `none`), accumulated tag. -/
structure Kind where
  name : String
  value : GoVal
  mapKeyKind : Option Kind
  mapValueKind : Option Kind
  tag : Tag

/-- A zero-initialised wrapper (`new(Kind)` / `&Kind{name: nm}`) with the
given name: nil value, no children, zero tag. -/
def freshKind (nm : String) : Kind :=
  { name := nm, value := .vNil, mapKeyKind := none, mapValueKind := none, tag := 0 }

/-- Go: `k.tag.Add(flag)` inside the classifier — the receiver keeps the
state the variadic `Add` stores. -/
def addTag (k : Kind) (f : Tag) : Kind :=
  { k with tag := (Tag.Add k.tag [f]).state }

/-- Go: the `multiSequence` closure of `checkComplexTypes` — whether the
accumulated tag already holds one of the four nesting categories. -/
def multiSequence (t : Tag) : Bool :=
  Tag.Any t [Tag.sliceOfSlices, Tag.sliceOfArrays, Tag.arrayOfSlices, Tag.arrayOfArrays]

/-- Whether a reflected type's `Kind()` is `reflect.Slice`. -/
def isSliceKind : GoType → Bool
  | .tSlice _ => true
  | _ => false

/-- Whether a reflected type's `Kind()` is `reflect.Array`. -/
def isArrayKind : GoType → Bool
  | .tArray _ _ => true
  | _ => false

/-- Go: `func checkComplexTypes(k *Kind, t reflect.Type, level int)` of
src/kind.go, the recursive classifier.  Each branch mirrors the source's
switch on `t.Kind()`; the `level` parameter is threaded but never consulted,
as in the source.  `reflect.Func` (and any other kind outside the switch)
reaches the inner scalar switch and matches nothing, leaving the wrapper
unchanged. -/
def checkComplexTypes (k : Kind) (t : GoType) (level : Nat) : Kind :=
  match t with
  | .tSlice e =>
    let k1 :=
      if isSliceKind e then addTag k Tag.sliceOfSlices
      else if isArrayKind e then addTag k Tag.sliceOfArrays
      else if !(multiSequence k.tag) then addTag k Tag.slice
      else k
    checkComplexTypes k1 e (level + 1)
  | .tArray _ e =>
    let k1 :=
      if isSliceKind e then addTag k Tag.arrayOfSlices
      else if isArrayKind e then addTag k Tag.arrayOfArrays
      else if !(multiSequence k.tag) then addTag k Tag.array
      else k
    checkComplexTypes k1 e (level + 1)
  | .tPtr e => checkComplexTypes (addTag k Tag.pointer) e (level + 1)
  | .tMap ky vl =>
    let k1 := addTag k Tag.map
    { k1 with
      mapKeyKind := some (checkComplexTypes (freshKind (typeName ky)) ky 0),
      mapValueKind := some (checkComplexTypes (freshKind (typeName vl)) vl 0) }
  | .tChan e => checkComplexTypes (addTag k Tag.chan) e (level + 1)
  | .tStruct _ => addTag k Tag.struct
  | .tBool => addTag k Tag.bool
  | .tString => addTag k Tag.string
  | .tInt8 => addTag k Tag.int8
  | .tInt16 => addTag k Tag.int16
  | .tInt32 => addTag k Tag.int32
  | .tInt64 => addTag k Tag.int64
  | .tUint8 => addTag k Tag.uint8
  | .tUint16 => addTag k Tag.uint16
  | .tUint32 => addTag k Tag.uint32
  | .tUint64 => addTag k Tag.uint64
  | .tInt => addTag k Tag.int
  | .tUint => addTag k Tag.uint
  | .tUintptr => addTag k Tag.uintptr
  | .tFloat32 => addTag k Tag.float32
  | .tFloat64 => addTag k Tag.float64
  | .tComplex64 => addTag k Tag.complex64
  | .tComplex128 => addTag k Tag.complex128
  | .tFunc => k

/-- Go: `func Of(v interface{}) *Kind` of src/kind.go: nil gets name "nil"
and the Nil tag via `Set`; otherwise the reflected type's name is stored and
the recursive classification starts at level 0. -/
def Kind.Of (v : GoVal) : Kind :=
  if v = .vNil then
    { name := "nil", value := v, mapKeyKind := none, mapValueKind := none,
      tag := (Tag.Set 0 [Tag.nil]).state }
  else
    let t := v.typeOf
    checkComplexTypes
      { name := typeName t, value := v, mapKeyKind := none,
        mapValueKind := none, tag := 0 } t 0

/-- Go: `func (k *Kind) Name() string`. -/
def Kind.Name (k : Kind) : String := k.name

/-- Go: `func (k *Kind) IsComplex() bool` — delegates to the tag. -/
def Kind.IsComplex (k : Kind) : Bool := Tag.IsComplex k.tag

/-- Go: `func (k *Kind) MapKeyKind() *Kind` — the stored child when the Map
tag is present and the child exists, else a fresh "nil" wrapper. -/
def Kind.MapKeyKind (k : Kind) : Kind :=
  match Tag.Has k.tag Tag.map, k.mapKeyKind with
  | true, some c => c
  | _, _ => { name := "nil", value := .vNil, mapKeyKind := none,
              mapValueKind := none, tag := Tag.nil }

/-- Go: `func (k *Kind) MapValueKind() *Kind`. -/
def Kind.MapValueKind (k : Kind) : Kind :=
  match Tag.Has k.tag Tag.map, k.mapValueKind with
  | true, some c => c
  | _, _ => { name := "nil", value := .vNil, mapKeyKind := none,
              mapValueKind := none, tag := Tag.nil }

/-- Go: `func (k *Kind) IsNil() bool`. -/
def Kind.IsNil (k : Kind) : Bool := Tag.Has k.tag Tag.nil

/-- Go: `func (k *Kind) IsPointer() bool`. -/
def Kind.IsPointer (k : Kind) : Bool := Tag.Has k.tag Tag.pointer

/-- Go: `func (k *Kind) IsArray() bool`. -/
def Kind.IsArray (k : Kind) : Bool := Tag.Has k.tag Tag.array

/-- Go: `func (k *Kind) IsSlice() bool`. -/
def Kind.IsSlice (k : Kind) : Bool := Tag.Has k.tag Tag.slice

/-- Go: `func (k *Kind) IsSliceOfSlices() bool`. -/
def Kind.IsSliceOfSlices (k : Kind) : Bool := Tag.Has k.tag Tag.sliceOfSlices

/-- Go: `func (k *Kind) IsArrayOfSlices() bool`. -/
def Kind.IsArrayOfSlices (k : Kind) : Bool := Tag.Has k.tag Tag.arrayOfSlices

/-- Go: `func (k *Kind) IsSliceOfArrays() bool`. -/
def Kind.IsSliceOfArrays (k : Kind) : Bool := Tag.Has k.tag Tag.sliceOfArrays

/-- Go: `func (k *Kind) IsArrayOfArrays() bool`. -/
def Kind.IsArrayOfArrays (k : Kind) : Bool := Tag.Has k.tag Tag.arrayOfArrays

/-- Go: `func (k *Kind) IsMap() bool`. -/
def Kind.IsMap (k : Kind) : Bool := Tag.Has k.tag Tag.map

/-- Go: `func (k *Kind) IsStruct() bool`. -/
def Kind.IsStruct (k : Kind) : Bool := Tag.Has k.tag Tag.struct

/-- Go: `func (k *Kind) IsBool() bool`. -/
def Kind.IsBool (k : Kind) : Bool := Tag.Has k.tag Tag.bool

/-- Go: `func (k *Kind) IsString() bool`. -/
def Kind.IsString (k : Kind) : Bool := Tag.Has k.tag Tag.string

/-- Go: `func (k *Kind) IsInt() bool`. -/
def Kind.IsInt (k : Kind) : Bool := Tag.Has k.tag Tag.int

/-- Go: `func (k *Kind) IsInt8() bool`. -/
def Kind.IsInt8 (k : Kind) : Bool := Tag.Has k.tag Tag.int8

/-- Go: `func (k *Kind) IsInt16() bool`. -/
def Kind.IsInt16 (k : Kind) : Bool := Tag.Has k.tag Tag.int16

/-- Go: `func (k *Kind) IsInt32() bool`. -/
def Kind.IsInt32 (k : Kind) : Bool := Tag.Has k.tag Tag.int32

/-- Go: `func (k *Kind) IsInt64() bool`. -/
def Kind.IsInt64 (k : Kind) : Bool := Tag.Has k.tag Tag.int64

/-- Go: `func (k *Kind) IsUint() bool`. -/
def Kind.IsUint (k : Kind) : Bool := Tag.Has k.tag Tag.uint

/-- Go: `func (k *Kind) IsUint8() bool`. -/
def Kind.IsUint8 (k : Kind) : Bool := Tag.Has k.tag Tag.uint8

/-- Go: `func (k *Kind) IsUint16() bool`. -/
def Kind.IsUint16 (k : Kind) : Bool := Tag.Has k.tag Tag.uint16

/-- Go: `func (k *Kind) IsUint32() bool`. -/
def Kind.IsUint32 (k : Kind) : Bool := Tag.Has k.tag Tag.uint32

/-- Go: `func (k *Kind) IsUint64() bool`. -/
def Kind.IsUint64 (k : Kind) : Bool := Tag.Has k.tag Tag.uint64

/-- Go: `func (k *Kind) IsUintptr() bool`. -/
def Kind.IsUintptr (k : Kind) : Bool := Tag.Has k.tag Tag.uintptr

/-- Go: `func (k *Kind) IsFloat32() bool`. -/
def Kind.IsFloat32 (k : Kind) : Bool := Tag.Has k.tag Tag.float32

/-- Go: `func (k *Kind) IsFloat64() bool`. -/
def Kind.IsFloat64 (k : Kind) : Bool := Tag.Has k.tag Tag.float64

/-- Go: `func (k *Kind) IsComplex64() bool`. -/
def Kind.IsComplex64 (k : Kind) : Bool := Tag.Has k.tag Tag.complex64

/-- Go: `func (k *Kind) IsComplex128() bool`. -/
def Kind.IsComplex128 (k : Kind) : Bool := Tag.Has k.tag Tag.complex128

/-- Go: `func (k *Kind) AsBool() (bool, bool)`.  `none` models the panic of
the single-value type assertion `k.value.(bool)` on a value whose dynamic
type is not `bool`. -/
def Kind.AsBool (k : Kind) : Option (Bool × Bool) :=
  if k.IsBool then
    match k.value with
    | .vBool b => some (b, true)
    | _ => none
  else some (false, false)

/-- Go: `func (k *Kind) AsString() (string, bool)`; `none` models the panic
of `k.value.(string)`. -/
def Kind.AsString (k : Kind) : Option (String × Bool) :=
  if k.IsString then
    match k.value with
    | .vString s => some (s, true)
    | _ => none
  else some ("", false)

/-- Go: `func (k *Kind) AsInt32() (int32, bool)`; `none` models the panic
of `k.value.(int32)`. -/
def Kind.AsInt32 (k : Kind) : Option (Int × Bool) :=
  if k.IsInt32 then
    match k.value with
    | .vInt32 n => some (n, true)
    | _ => none
  else some (0, false)

/-- Go: `func (k *Kind) AsUint64() (uint64, bool)`; `none` models the panic
of `k.value.(uint64)`. -/
def Kind.AsUint64 (k : Kind) : Option (Nat × Bool) :=
  if k.IsUint64 then
    match k.value with
    | .vUint64 n => some (n, true)
    | _ => none
  else some (0, false)

/-- Proof-side abbreviation: the union (`|||`) of a list of flags folded onto
a start value, the shape `setAddLoop` takes on single valid flags. -/
def unionFold (r : Tag) (l : List Tag) : Tag := l.foldl (· ||| ·) r

/-- The scalar reflect kinds, i.e. the `GoType` constructors handled by the
inner scalar switch of `checkComplexTypes`. -/
def isScalarKind : GoType → Bool
  | .tBool | .tString
  | .tInt | .tInt8 | .tInt16 | .tInt32 | .tInt64
  | .tUint | .tUint8 | .tUint16 | .tUint32 | .tUint64
  | .tUintptr | .tFloat32 | .tFloat64 | .tComplex64 | .tComplex128 => true
  | _ => false

/-- The flag the inner scalar switch of `checkComplexTypes` adds for a scalar
reflect kind (zero for non-scalar kinds, never consulted there). -/
def scalarTag : GoType → Tag
  | .tBool => Tag.bool
  | .tString => Tag.string
  | .tInt => Tag.int
  | .tInt8 => Tag.int8
  | .tInt16 => Tag.int16
  | .tInt32 => Tag.int32
  | .tInt64 => Tag.int64
  | .tUint => Tag.uint
  | .tUint8 => Tag.uint8
  | .tUint16 => Tag.uint16
  | .tUint32 => Tag.uint32
  | .tUint64 => Tag.uint64
  | .tUintptr => Tag.uintptr
  | .tFloat32 => Tag.float32
  | .tFloat64 => Tag.float64
  | .tComplex64 => Tag.complex64
  | .tComplex128 => Tag.complex128
  | _ => 0

/-- Invariant used for the classifier walk: the second tag is still valid,
still holds a nesting category, and agrees with the first on the plain
Slice bit (5) and the plain Array bit (2). -/
def nestPreserved (s s' : Tag) : Prop :=
  Tag.IsValid s' = true ∧ multiSequence s' = true ∧
  s'.testBit 5 = s.testBit 5 ∧ s'.testBit 2 = s.testBit 2
example : Tag.IsValid 0 = true := by decide
example : Tag.IsValid Tag.nil = true := by decide
example : Tag.IsValid (Tag.nil ||| Tag.pointer) = true := by decide
example : Tag.IsValid overflowTagValue = false := by decide
example : Tag.IsSingle Tag.unsafePtr = true := by decide
example : Tag.IsSingle (Tag.nil + Tag.pointer) = false := by decide
example : Tag.IsComplex (Tag.slice + Tag.int) = true := by decide
example : (Tag.Set 0 [Tag.nil]).state = 1 := by decide
example : (Tag.Set 7 []).state = 0 := by decide
example : (Tag.Add 1 [1]).state = 1 := by decide
example : (Tag.Delete 1 [1]).state = 0 := by decide
example : (Tag.Set 0 [3, 2]).ret = 3 := by decide
example : (Tag.Set 0 [2, 3]).ret = 5 := by decide
example : (Tag.Set 0 [Tag.nil, overflowTagValue]).err.isSome = true := by decide
example : (Tag.Set 0 [Tag.nil, overflowTagValue]).ret = 0 := by decide
example : (Tag.Add 5 [0]).err = none := by decide
example : (Tag.Add 5 [0]).state = 5 := by decide
example : Tag.Contains 3 0 = (false, some "flag cannot be zero") := by decide

example : (Kind.Of (.vInt32 7)).tag = Tag.int32 := by decide
example : Kind.AsInt32 (Kind.Of (.vInt32 7)) = some (7, true) := by decide
example : Kind.IsInt32 (Kind.Of (.vSlice .tInt32)) = true := by decide
example : Kind.AsInt32 (Kind.Of (.vSlice .tInt32)) = none := by decide
example : (Kind.Of (.vSlice (.tSlice .tInt32))).Name = "[][]int32" := by decide
example : Kind.IsSliceOfSlices (Kind.Of (.vSlice (.tSlice .tInt32))) = true := by decide
example : Kind.IsSlice (Kind.Of (.vSlice (.tSlice .tInt32))) = false := by decide
example : Kind.IsInt32 (Kind.Of (.vSlice (.tSlice .tInt32))) = true := by decide
example : Kind.IsComplex (Kind.Of (.vSlice (.tSlice .tInt32))) = true := by decide
example : Kind.IsSliceOfArrays (Kind.Of (.vSlice (.tArray 5 (.tSlice .tInt32)))) = true := by decide
example : Kind.IsArrayOfSlices (Kind.Of (.vSlice (.tArray 5 (.tSlice .tInt32)))) = true := by decide
example : (Kind.Of (.vMap .tString .tInt)).tag = Tag.map := by decide
example : Kind.IsComplex (Kind.Of (.vMap .tString .tInt)) = false := by decide
example : Kind.IsString ((Kind.Of (.vMap .tString .tInt)).MapKeyKind) = true := by decide
example : Kind.IsInt ((Kind.Of (.vMap .tString .tInt)).MapValueKind) = true := by decide
example : (Kind.Of (.vInt32 0)).MapKeyKind.Name = "nil" := by decide
example : (Kind.Of (.vInt32 0)).MapKeyKind.IsNil = true := by decide
example : Kind.IsSlice (Kind.Of (.vSlice (.tPtr (.tSlice (.tSlice .tInt))))) = true := by decide
example : Kind.IsSliceOfSlices (Kind.Of (.vSlice (.tPtr (.tSlice (.tSlice .tInt))))) = true := by decide

/-- Bit test of a containment check against a power of two, as the source's
`t&flag == flag` computes it. -/
lemma and_two_pow_beq (c i : Nat) : (c &&& 2 ^ i == 2 ^ i) = c.testBit i := by
  have hpos := Nat.two_pow_pos i
  rcases hb : c.testBit i with _ | _
  · have h0 : c &&& 2 ^ i = 0 := by rw [Nat.and_two_pow, hb]; simp
    rw [h0, beq_eq_false_iff_ne]
    exact hpos.ne
  · have h1 : c &&& 2 ^ i = 2 ^ i := by rw [Nat.and_two_pow, hb]; simp
    rw [h1]
    exact beq_self_eq_true _

/-- One `IsValid` loop iteration clears exactly bit `i`. -/
lemma validClearStep_testBit (c i j : Nat) :
    (validClearStep c i).testBit j = (c.testBit j && !(j == i)) := by
  unfold validClearStep
  rw [Nat.one_shiftLeft]
  simp only [and_two_pow_beq]
  rcases hb : c.testBit i with _ | _
  · simp only [hb, if_neg (by simp : ¬(false = true))]
    by_cases hj : j = i
    · subst hj; simp [hb]
    · simp [hj]
  · simp only [hb, if_pos rfl, Nat.testBit_xor]
    by_cases hj : j = i
    · subst hj; simp [hb, Nat.testBit_two_pow_self]
    · simp [Nat.testBit_two_pow_of_ne (Ne.symm hj), hj]

/-- After the first `n` iterations of the `IsValid` loop, bits below `n` are
cleared and bits at or above `n` are untouched. -/
lemma foldl_validClearStep_testBit :
    ∀ (n c j : Nat),
      ((List.range n).foldl validClearStep c).testBit j
        = (c.testBit j && decide (n ≤ j)) := by
  intro n
  induction n with
  | zero => intro c j; simp
  | succ n ih =>
    intro c j
    rw [List.range_succ, List.foldl_append, List.foldl_cons, List.foldl_nil,
      validClearStep_testBit, ih]
    rcases hc : c.testBit j with _ | _
    · simp
    · simp only [hc, Bool.true_and]
      rw [Bool.eq_iff_iff]
      simp only [Bool.and_eq_true, decide_eq_true_eq, Bool.not_eq_true',
        beq_eq_false_iff_ne]
      omega

/-- Characterization of the source's `IsValid` loop: a Tag is valid exactly
when it has no bits at or above the overflow boundary (bit 30). -/
lemma tagIsValid_iff (t : Tag) :
    Tag.IsValid t = true ↔ ∀ j, 30 ≤ j → t.testBit j = false := by
  unfold Tag.IsValid
  by_cases h0 : t = 0
  · subst h0
    simp [Nat.zero_testBit]
  · rw [if_neg h0, beq_iff_eq]
    constructor
    · intro hz j hj
      have hb := congrArg (fun x => Nat.testBit x j) hz
      simp only [foldl_validClearStep_testBit, Nat.zero_testBit] at hb
      rw [decide_eq_true hj, Bool.and_true] at hb
      exact hb
    · intro hb
      apply Nat.zero_of_testBit_eq_false
      intro j
      rw [foldl_validClearStep_testBit]
      by_cases h30 : 30 ≤ j
      · rw [hb j h30, Bool.false_and]
      · rw [decide_eq_false h30, Bool.and_false]

/-- A power of two below the overflow boundary is a valid Tag. -/
lemma tagIsValid_two_pow {i : Nat} (hi : i < 30) : Tag.IsValid (2 ^ i) = true := by
  rw [tagIsValid_iff]
  intro j hj
  exact Nat.testBit_two_pow_of_ne (by omega)

/-- Validity is preserved by bitwise union. -/
lemma tagIsValid_or {a b : Tag} (ha : Tag.IsValid a = true)
    (hb : Tag.IsValid b = true) : Tag.IsValid (a ||| b) = true := by
  rw [tagIsValid_iff] at ha hb ⊢
  intro j hj
  rw [Nat.testBit_lor, ha j hj, hb j hj]
  rfl

/-- Adding a fresh power of two coincides with bitwise union. -/
lemma add_two_pow_of_testBit_false :
    ∀ (i t : Nat), t.testBit i = false → t + 2 ^ i = t ||| 2 ^ i := by
  intro i
  induction i with
  | zero =>
    intro t h
    have hd : Nat.bit false (t >>> 1) = t := by
      have hx := Nat.bit_testBit_zero_shiftRight_one t
      rwa [h] at hx
    have h1 : (2 : Nat) ^ 0 = Nat.bit true 0 := rfl
    conv_lhs => rw [← hd]
    conv_rhs => rw [← hd, h1, Nat.lor_bit]
    simp [Nat.bit_val]
  | succ i ih =>
    intro t h
    have hd : Nat.bit (t.testBit 0) (t >>> 1) = t :=
      Nat.bit_testBit_zero_shiftRight_one t
    have hm : (t >>> 1).testBit i = false := by
      rw [Nat.shiftRight_one, ← Nat.testBit_add_one]
      exact h
    have h2 : (2 : Nat) ^ (i + 1) = Nat.bit false (2 ^ i) := by
      simp [Nat.bit_val, Nat.pow_succ, Nat.mul_comm]
    conv_lhs => rw [← hd]
    conv_rhs => rw [← hd, h2, Nat.lor_bit]
    rw [Nat.bit_val, Nat.bit_val, Bool.or_false, ← ih (t >>> 1) hm, h2,
      Nat.bit_val]
    simp [Bool.toNat]
    ring

/-- Union with a power of two whose bit is already set is the identity. -/
lemma or_two_pow_of_testBit_true {i t : Nat} (h : t.testBit i = true) :
    t ||| 2 ^ i = t := by
  apply Nat.eq_of_testBit_eq
  intro j
  rw [Nat.testBit_lor]
  by_cases hj : j = i
  · subst hj; rw [h]; rfl
  · rw [Nat.testBit_two_pow_of_ne (Ne.symm hj), Bool.or_false]

/-- Subtracting a power of two whose bit is set coincides with xor, i.e.
clears exactly that bit. -/
lemma sub_two_pow_of_testBit_true {i t : Nat} (h : t.testBit i = true) :
    t - 2 ^ i = t ^^^ 2 ^ i := by
  have hx : (t ^^^ 2 ^ i).testBit i = false := by
    rw [Nat.testBit_xor, h, Nat.testBit_two_pow_self]
    rfl
  have hadd := add_two_pow_of_testBit_false i (t ^^^ 2 ^ i) hx
  have hor : (t ^^^ 2 ^ i) ||| 2 ^ i = t := by
    apply Nat.eq_of_testBit_eq
    intro j
    rw [Nat.testBit_lor, Nat.testBit_xor]
    by_cases hj : j = i
    · subst hj; rw [h, Nat.testBit_two_pow_self]; rfl
    · rw [Nat.testBit_two_pow_of_ne (Ne.symm hj), Bool.xor_false, Bool.or_false]
  omega

/-- A list of naturals summing to one has exactly one entry equal to one. -/
lemma sum_map_range_eq_one {g : Nat → Nat} :
    ∀ {n : Nat}, ((List.range n).map g).sum = 1 →
      ∃ i, i < n ∧ g i = 1 ∧ ∀ j, j < n → j ≠ i → g j = 0 := by
  intro n
  induction n with
  | zero => intro h; simp at h
  | succ n ih =>
    intro h
    rw [List.range_succ, List.map_append, List.sum_append] at h
    simp only [List.map_cons, List.map_nil, List.sum_cons, List.sum_nil] at h
    rcases Nat.lt_or_ge 0 (g n) with hgn | hgn
    · have hS : ((List.range n).map g).sum = 0 := by omega
      have hgn1 : g n = 1 := by omega
      refine ⟨n, Nat.lt_succ_self n, hgn1, fun j hj hne => ?_⟩
      have hjn : j < n := by omega
      have := List.sum_eq_zero_iff.mp hS (g j)
        (List.mem_map_of_mem g (List.mem_range.mpr hjn))
      exact this
    · have hgn0 : g n = 0 := by omega
      have hS : ((List.range n).map g).sum = 1 := by omega
      obtain ⟨i, hin, hgi, hrest⟩ := ih hS
      refine ⟨i, by omega, hgi, fun j hj hne => ?_⟩
      by_cases hjn : j = n
      · subst hjn; exact hgn0
      · exact hrest j (by omega) hne

/-- A Tag satisfying the source's `IsSingle` is a power of two below the
overflow boundary. -/
lemma single_eq_two_pow {f : Tag} (h : Tag.IsSingle f = true) :
    ∃ i, i < 30 ∧ f = 2 ^ i := by
  unfold Tag.IsSingle onesCount at h
  rw [Bool.and_eq_true, beq_iff_eq, decide_eq_true_eq] at h
  obtain ⟨h1, h2⟩ := h
  have h29 : f ≤ 2 ^ 29 := h2
  obtain ⟨i, hin, hgi, hrest⟩ := sum_map_range_eq_one h1
  have hbit : f.testBit i = true := by
    rcases hb : f.testBit i with _ | _
    · rw [hb] at hgi; simp at hgi
    · rfl
  have hi30 : i < 30 := by
    by_contra hge
    have hlt : f < 2 ^ i :=
      lt_of_le_of_lt h29 (Nat.pow_lt_pow_right (by omega) (by omega))
    rw [Nat.testBit_eq_false_of_lt hlt] at hbit
    exact Bool.noConfusion hbit
  refine ⟨i, hi30, Nat.eq_of_testBit_eq fun j => ?_⟩
  by_cases hj : j = i
  · subst hj; rw [hbit, Nat.testBit_two_pow_self]
  · rw [Nat.testBit_two_pow_of_ne (Ne.symm hj)]
    by_cases hj64 : j < 64
    · have hz := hrest j hj64 hj
      rcases hb : f.testBit j with _ | _
      · rfl
      · rw [hb] at hz; simp at hz
    · apply Nat.testBit_eq_false_of_lt
      exact lt_of_le_of_lt h29 (Nat.pow_lt_pow_right (by omega) (by omega))

/-- `Contains` on a valid receiver and a single defined-bit flag reduces to
the bit test, with a nil error. -/
lemma contains_single {t : Tag} {i : Nat} (ht : Tag.IsValid t = true)
    (hi : i < 30) : Tag.Contains t (2 ^ i) = (t.testBit i, none) := by
  unfold Tag.Contains
  rw [if_neg (Nat.two_pow_pos i).ne', tagIsValid_two_pow hi, ht]
  simp [and_two_pow_beq]

/-- On lists of single defined-bit flags the `Set`/`Add` loop never errors
and computes the bitwise union of the accumulator with the flags. -/
lemma setAddLoop_singles :
    ∀ (l : List Tag) (t r : Tag), (∀ f ∈ l, Tag.IsSingle f = true) →
      Tag.IsValid r = true →
      Tag.setAddLoop t r l = ⟨unionFold r l, unionFold r l, none⟩ := by
  intro l
  induction l with
  | nil => intro t r _ _; rfl
  | cons f fs ih =>
    intro t r hl hr
    obtain ⟨hf, hfs⟩ := List.forall_mem_cons.mp hl
    obtain ⟨i, hi, rfl⟩ := single_eq_two_pow hf
    have hu : unionFold r (2 ^ i :: fs) = unionFold (r ||| 2 ^ i) fs := rfl
    unfold Tag.setAddLoop
    rw [tagIsValid_two_pow hi, contains_single hr hi]
    simp only [Bool.not_true, Bool.false_eq_true, if_false]
    rcases hb : r.testBit i with _ | _
    · simp only [if_neg (by simp : ¬(false = true))]
      rw [add_two_pow_of_testBit_false i r hb, ih t (r ||| 2 ^ i) hfs
        (tagIsValid_or hr (tagIsValid_two_pow hi)), hu]
    · rw [if_pos rfl, ih t r hfs hr, hu, or_two_pow_of_testBit_true hb]

/-- Bits of the folded union: a bit is set iff it is set in the start value
or in some flag of the list. -/
lemma unionFold_testBit :
    ∀ (l : List Tag) (r : Tag) (j : Nat),
      (unionFold r l).testBit j = (r.testBit j || l.any fun f => f.testBit j) := by
  intro l
  induction l with
  | nil => intro r j; simp [unionFold]
  | cons f fs ih =>
    intro r j
    have hu : unionFold r (f :: fs) = unionFold (r ||| f) fs := rfl
    rw [hu, ih, Nat.testBit_lor, List.any_cons, Bool.or_assoc]

/-- On lists of single defined-bit flags the `Delete` loop never errors and
clears exactly the listed bits from the accumulator. -/
lemma deleteLoop_singles :
    ∀ (l : List Tag) (t r : Tag), (∀ f ∈ l, Tag.IsSingle f = true) →
      Tag.IsValid r = true →
      ∃ s, Tag.deleteLoop t r l = ⟨s, s, none⟩ ∧ Tag.IsValid s = true ∧
        ∀ j, s.testBit j = (r.testBit j && !(l.any fun f => f.testBit j)) := by
  intro l
  induction l with
  | nil =>
    intro t r _ hr
    exact ⟨r, rfl, hr, fun j => by simp⟩
  | cons f fs ih =>
    intro t r hl hr
    obtain ⟨hf, hfs⟩ := List.forall_mem_cons.mp hl
    obtain ⟨i, hi, rfl⟩ := single_eq_two_pow hf
    have hstep : ∀ r1, (r1 = if r.testBit i then r - 2 ^ i else r) →
        Tag.IsValid r1 = true ∧ ∀ j, r1.testBit j = (r.testBit j && !(j == i)) := by
      intro r1 hr1
      rcases hb : r.testBit i with _ | _
      · rw [hb, if_neg (by simp : ¬(false = true))] at hr1
        subst hr1
        constructor
        · exact hr
        · intro j
          by_cases hj : j = i
          · subst hj; rw [hb, Bool.false_and]
          · rw [(by simp [hj] : (j == i) = false), Bool.not_false, Bool.and_true]
      · rw [hb, if_pos rfl, sub_two_pow_of_testBit_true hb] at hr1
        subst hr1
        constructor
        · rw [tagIsValid_iff] at hr ⊢
          intro j hj
          rw [Nat.testBit_xor, hr j hj, Nat.testBit_two_pow_of_ne (by omega)]
          rfl
        · intro j
          rw [Nat.testBit_xor]
          by_cases hj : j = i
          · subst hj
            rw [hb, Nat.testBit_two_pow_self, (by simp : (j == j) = true)]
            rfl
          · rw [Nat.testBit_two_pow_of_ne (Ne.symm hj),
              (by simp [hj] : (j == i) = false), Bool.xor_false, Bool.not_false,
              Bool.and_true]
    obtain ⟨hv1, hb1⟩ := hstep _ rfl
    obtain ⟨s, hres, hvs, hbs⟩ := ih t _ hfs hv1
    refine ⟨s, ?_, hvs, ?_⟩
    · unfold Tag.deleteLoop
      rw [tagIsValid_two_pow hi, contains_single hr hi]
      simp only [Bool.not_true, Bool.false_eq_true, if_false]
      exact hres
    · intro j
      rw [hbs j, hb1 j, List.any_cons]
      rw [(by rw [Nat.testBit_two_pow]; exact decide_eq_decide.mpr ⟨Eq.symm, Eq.symm⟩ :
        ((2 ^ i : Tag).testBit j) = (j == i))]
      rcases r.testBit j with _ | _ <;> rcases (j == i) with _ | _ <;>
        rcases (fs.any fun f => f.testBit j) with _ | _ <;> rfl

/-- If some flag in the list fails `IsValid`, the `Set`/`Add` loop aborts:
the receiver keeps, and the call returns, the original value `t`, together
with an error. -/
lemma setAddLoop_invalid :
    ∀ (l : List Tag) (t r : Tag), (∃ f ∈ l, Tag.IsValid f = false) →
      ∃ msg, Tag.setAddLoop t r l = ⟨t, t, some msg⟩ := by
  intro l
  induction l with
  | nil => intro t r h; simp at h
  | cons f fs ih =>
    intro t r h
    rcases hv : Tag.IsValid f with _ | _
    · exact ⟨_, by unfold Tag.setAddLoop; rw [hv]; rfl⟩
    · obtain ⟨g, hg, hgv⟩ := h
      rcases List.mem_cons.mp hg with rfl | hgfs
      · rw [hv] at hgv; exact Bool.noConfusion hgv
      · unfold Tag.setAddLoop
        rw [hv]
        exact ih t _ ⟨g, hgfs, hgv⟩

/-- If some flag in the list fails `IsValid`, the `Delete` loop aborts the
same way. -/
lemma deleteLoop_invalid :
    ∀ (l : List Tag) (t r : Tag), (∃ f ∈ l, Tag.IsValid f = false) →
      ∃ msg, Tag.deleteLoop t r l = ⟨t, t, some msg⟩ := by
  intro l
  induction l with
  | nil => intro t r h; simp at h
  | cons f fs ih =>
    intro t r h
    rcases hv : Tag.IsValid f with _ | _
    · exact ⟨_, by unfold Tag.deleteLoop; rw [hv]; rfl⟩
    · obtain ⟨g, hg, hgv⟩ := h
      rcases List.mem_cons.mp hg with rfl | hgfs
      · rw [hv] at hgv; exact Bool.noConfusion hgv
      · unfold Tag.deleteLoop
        rw [hv]
        exact ih t _ ⟨g, hgfs, hgv⟩

/-- `Add` of one single defined-bit flag stores and returns the union. -/
lemma add_single_state {s f : Tag} (hs : Tag.IsValid s = true)
    (hf : Tag.IsSingle f = true) :
    Tag.Add s [f] = ⟨s ||| f, s ||| f, none⟩ := by
  unfold Tag.Add
  rw [setAddLoop_singles [f] s s (by simpa using hf) hs]
  rfl

/-- The folded union of single defined-bit flags onto a valid start stays
valid. -/
lemma unionFold_valid :
    ∀ (l : List Tag) (r : Tag), (∀ f ∈ l, Tag.IsSingle f = true) →
      Tag.IsValid r = true → Tag.IsValid (unionFold r l) = true := by
  intro l
  induction l with
  | nil => intro r _ hr; exact hr
  | cons f fs ih =>
    intro r hl hr
    obtain ⟨hf, hfs⟩ := List.forall_mem_cons.mp hl
    obtain ⟨i, hi, rfl⟩ := single_eq_two_pow hf
    exact ih (r ||| 2 ^ i) hfs (tagIsValid_or hr (tagIsValid_two_pow hi))

/-- On a valid tag, `multiSequence` is the disjunction of the four nesting
bits (6, 7, 4, 3). -/
lemma multiSequence_eq {t : Tag} (ht : Tag.IsValid t = true) :
    multiSequence t
      = (t.testBit 6 || (t.testBit 7 || (t.testBit 4 || t.testBit 3))) := by
  unfold multiSequence Tag.Any
  simp only [Tag.sliceOfSlices, Tag.sliceOfArrays, Tag.arrayOfSlices,
    Tag.arrayOfArrays, List.any_cons, List.any_nil]
  rw [contains_single ht (by omega), contains_single ht (by omega),
    contains_single ht (by omega), contains_single ht (by omega)]
  simp

/-- The walk invariant holds reflexively on a valid, nesting-tagged state. -/
lemma nestPreserved_rfl {s : Tag} (hv : Tag.IsValid s = true)
    (hm : multiSequence s = true) : nestPreserved s s :=
  ⟨hv, hm, rfl, rfl⟩

/-- The walk invariant is transitive. -/
lemma nestPreserved_trans {a b c : Tag} (h1 : nestPreserved a b)
    (h2 : nestPreserved b c) : nestPreserved a c :=
  ⟨h2.1, h2.2.1, h2.2.2.1.trans h1.2.2.1, h2.2.2.2.trans h1.2.2.2⟩

/-- The 64-bit indicator sum of a power of two: one when the bit position is
in range, zero otherwise. -/
lemma sum_indicator_two_pow (n i : Nat) :
    ((List.range n).map fun j => ((2 ^ i : Nat).testBit j).toNat).sum
      = if i < n then 1 else 0 := by
  induction n with
  | zero => simp
  | succ n ih =>
    rw [List.range_succ, List.map_append, List.sum_append]
    simp only [List.map_cons, List.map_nil, List.sum_cons, List.sum_nil, ih]
    rw [Nat.testBit_two_pow]
    by_cases hin : i = n
    · subst hin
      rw [if_neg (lt_irrefl i), if_pos (Nat.lt_succ_self i)]
      simp
    · by_cases hlt : i < n
      · rw [if_pos hlt, if_pos (by omega)]
        simp [hin]
      · rw [if_neg hlt, if_neg (by omega)]
        simp [hin]

/-- A power of two below the overflow boundary satisfies `IsSingle`. -/
lemma two_pow_single {i : Nat} (hi : i < 30) : Tag.IsSingle (2 ^ i) = true := by
  unfold Tag.IsSingle onesCount
  rw [Bool.and_eq_true]
  constructor
  · rw [beq_iff_eq, sum_indicator_two_pow, if_pos (by omega)]
  · rw [decide_eq_true_eq,
      (by decide : ((overflowTagValue + 1) >>> 1 : Tag) = 2 ^ 29)]
    exact Nat.pow_le_pow_right (by omega) (by omega)

/-- Adding any defined single flag other than plain Slice (bit 5) or plain
Array (bit 2) preserves the walk invariant. -/
lemma add_nestPreserved {s : Tag} {i : Nat} (hv : Tag.IsValid s = true)
    (hm : multiSequence s = true) (hi : i < 30) (h5 : i ≠ 5) (h2 : i ≠ 2) :
    nestPreserved s ((Tag.Add s [2 ^ i]).state) := by
  rw [add_single_state hv (two_pow_single hi)]
  have hv' : Tag.IsValid (s ||| 2 ^ i) = true :=
    tagIsValid_or hv (tagIsValid_two_pow hi)
  refine ⟨hv', ?_, ?_, ?_⟩
  · rw [multiSequence_eq hv']
    rw [multiSequence_eq hv] at hm
    simp only [Nat.testBit_lor]
    simp only [Bool.or_eq_true] at hm ⊢
    tauto
  · rw [Nat.testBit_lor, Nat.testBit_two_pow_of_ne (by omega), Bool.or_false]
  · rw [Nat.testBit_lor, Nat.testBit_two_pow_of_ne (by omega), Bool.or_false]

/-- Core of the `multiSequence` guard analysis: once the accumulated tag is
valid and holds a nesting category, the entire remaining classifier walk
keeps it valid, keeps a nesting category, and never changes the plain Slice
bit (5) or the plain Array bit (2). -/
lemma checkComplexTypes_nestPreserved :
    ∀ (t : GoType) (k : Kind) (lvl : Nat),
      Tag.IsValid k.tag = true → multiSequence k.tag = true →
      nestPreserved k.tag (checkComplexTypes k t lvl).tag := by
  intro t
  induction t with
  | tSlice e ih =>
    intro k lvl hv hm
    have hstep : ∀ k1 : Kind,
        k1 = (if isSliceKind e then addTag k Tag.sliceOfSlices
          else if isArrayKind e then addTag k Tag.sliceOfArrays
          else if !(multiSequence k.tag) then addTag k Tag.slice else k) →
        nestPreserved k.tag k1.tag := by
      intro k1 hk1
      rcases hse : isSliceKind e with _ | _
      · rcases hae : isArrayKind e with _ | _
        · rw [hse, hae, hm] at hk1
          simp at hk1
          subst hk1
          exact nestPreserved_rfl hv hm
        · rw [hse, hae] at hk1
          simp at hk1
          subst hk1
          exact @add_nestPreserved k.tag 7 hv hm (by omega) (by omega) (by omega)
      · rw [hse] at hk1
        simp at hk1
        subst hk1
        exact @add_nestPreserved k.tag 6 hv hm (by omega) (by omega) (by omega)
    have h1 := hstep _ rfl
    exact nestPreserved_trans h1 (ih _ (lvl + 1) h1.1 h1.2.1)
  | tArray n e ih =>
    intro k lvl hv hm
    have hstep : ∀ k1 : Kind,
        k1 = (if isSliceKind e then addTag k Tag.arrayOfSlices
          else if isArrayKind e then addTag k Tag.arrayOfArrays
          else if !(multiSequence k.tag) then addTag k Tag.array else k) →
        nestPreserved k.tag k1.tag := by
      intro k1 hk1
      rcases hse : isSliceKind e with _ | _
      · rcases hae : isArrayKind e with _ | _
        · rw [hse, hae, hm] at hk1
          simp at hk1
          subst hk1
          exact nestPreserved_rfl hv hm
        · rw [hse, hae] at hk1
          simp at hk1
          subst hk1
          exact @add_nestPreserved k.tag 3 hv hm (by omega) (by omega) (by omega)
      · rw [hse] at hk1
        simp at hk1
        subst hk1
        exact @add_nestPreserved k.tag 4 hv hm (by omega) (by omega) (by omega)
    have h1 := hstep _ rfl
    exact nestPreserved_trans h1 (ih _ (lvl + 1) h1.1 h1.2.1)
  | tPtr e ih =>
    intro k lvl hv hm
    have h1 := @add_nestPreserved k.tag 1 hv hm (by omega) (by omega) (by omega)
    exact nestPreserved_trans h1 (ih (addTag k Tag.pointer) (lvl + 1) h1.1 h1.2.1)
  | tMap ky vl ihk ihv =>
    intro k lvl hv hm
    exact @add_nestPreserved k.tag 9 hv hm (by omega) (by omega) (by omega)
  | tChan e ih =>
    intro k lvl hv hm
    have h1 := @add_nestPreserved k.tag 11 hv hm (by omega) (by omega) (by omega)
    exact nestPreserved_trans h1 (ih (addTag k Tag.chan) (lvl + 1) h1.1 h1.2.1)
  | tStruct nm =>
    intro k lvl hv hm
    exact @add_nestPreserved k.tag 8 hv hm (by omega) (by omega) (by omega)
  | tFunc =>
    intro k lvl hv hm
    exact nestPreserved_rfl hv hm
  | tBool =>
    intro k lvl hv hm
    exact @add_nestPreserved k.tag 12 hv hm (by omega) (by omega) (by omega)
  | tString =>
    intro k lvl hv hm
    exact @add_nestPreserved k.tag 28 hv hm (by omega) (by omega) (by omega)
  | tInt =>
    intro k lvl hv hm
    exact @add_nestPreserved k.tag 13 hv hm (by omega) (by omega) (by omega)
  | tInt8 =>
    intro k lvl hv hm
    exact @add_nestPreserved k.tag 14 hv hm (by omega) (by omega) (by omega)
  | tInt16 =>
    intro k lvl hv hm
    exact @add_nestPreserved k.tag 15 hv hm (by omega) (by omega) (by omega)
  | tInt32 =>
    intro k lvl hv hm
    exact @add_nestPreserved k.tag 16 hv hm (by omega) (by omega) (by omega)
  | tInt64 =>
    intro k lvl hv hm
    exact @add_nestPreserved k.tag 17 hv hm (by omega) (by omega) (by omega)
  | tUint =>
    intro k lvl hv hm
    exact @add_nestPreserved k.tag 18 hv hm (by omega) (by omega) (by omega)
  | tUint8 =>
    intro k lvl hv hm
    exact @add_nestPreserved k.tag 19 hv hm (by omega) (by omega) (by omega)
  | tUint16 =>
    intro k lvl hv hm
    exact @add_nestPreserved k.tag 20 hv hm (by omega) (by omega) (by omega)
  | tUint32 =>
    intro k lvl hv hm
    exact @add_nestPreserved k.tag 21 hv hm (by omega) (by omega) (by omega)
  | tUint64 =>
    intro k lvl hv hm
    exact @add_nestPreserved k.tag 22 hv hm (by omega) (by omega) (by omega)
  | tUintptr =>
    intro k lvl hv hm
    exact @add_nestPreserved k.tag 23 hv hm (by omega) (by omega) (by omega)
  | tFloat32 =>
    intro k lvl hv hm
    exact @add_nestPreserved k.tag 24 hv hm (by omega) (by omega) (by omega)
  | tFloat64 =>
    intro k lvl hv hm
    exact @add_nestPreserved k.tag 25 hv hm (by omega) (by omega) (by omega)
  | tComplex64 =>
    intro k lvl hv hm
    exact @add_nestPreserved k.tag 26 hv hm (by omega) (by omega) (by omega)
  | tComplex128 =>
    intro k lvl hv hm
    exact @add_nestPreserved k.tag 27 hv hm (by omega) (by omega) (by omega)

/-- C1: the claim states every scalar accessor returns the retained value
and `true` whenever the matching `Is` predicate holds, and never panics,
explicitly including container values such as a `[]int32` whose wrapper
carries the accumulated Int32 scalar tag.  The code violates this: on
`Of([]int32{})` the `IsInt32` predicate holds, but `AsInt32` executes the
single-value type assertion `k.value.(int32)` on a value whose dynamic type
is `[]int32`, which panics at run time (modelled here by `none`); on a
genuine `int32` scalar the accessor does return the payload with `true`. -/
theorem claim_C1_accessor_panics :
    Kind.IsInt32 (Kind.Of (.vSlice .tInt32)) = true ∧
    Kind.AsInt32 (Kind.Of (.vSlice .tInt32)) = none ∧
    Kind.AsInt32 (Kind.Of (.vInt32 7)) = some (7, true) := by decide

/-- C2 counterexample: with starting value `Nil` and flag list `[Nil]` —
a valid starting Tag and a list of valid flags where the starting value
already contains a listed flag — `Add` leaves the value at `Nil` (the flag
is already present) and `Delete` then removes it, ending at `0 ≠ Nil`, so
`Add` followed by `Delete` does not restore the original value. -/
theorem claim_C2_counterexample :
    Tag.IsValid Tag.nil = true ∧ Tag.IsSingle Tag.nil = true ∧
    Tag.Add Tag.nil [Tag.nil] = ⟨Tag.nil, Tag.nil, none⟩ ∧
    Tag.Delete (Tag.Add Tag.nil [Tag.nil]).state [Tag.nil] = ⟨0, 0, none⟩ ∧
    (Tag.Delete (Tag.Add Tag.nil [Tag.nil]).state [Tag.nil]).state ≠ Tag.nil := by
  decide

/-- C2 amended: for a valid starting Tag and a list of single defined-bit
flags none of which the starting value already contains, `Add` of the list
followed by `Delete` of the same list restores the starting value exactly
(and neither call errors). -/
theorem claim_C2_add_delete (t : Tag) (l : List Tag)
    (hv : Tag.IsValid t = true)
    (hs : ∀ f ∈ l, Tag.IsSingle f = true)
    (hd : ∀ f ∈ l, Tag.Has t f = false) :
    Tag.Delete (Tag.Add t l).state l = ⟨t, t, none⟩ := by
  have hAdd : Tag.Add t l = ⟨unionFold t l, unionFold t l, none⟩ :=
    setAddLoop_singles l t t hs hv
  have huv : Tag.IsValid (unionFold t l) = true := unionFold_valid l t hs hv
  obtain ⟨s, hres, hvs, hbs⟩ :=
    deleteLoop_singles l (unionFold t l) (unionFold t l) hs huv
  have hst : s = t := by
    apply Nat.eq_of_testBit_eq
    intro j
    rw [hbs j, unionFold_testBit]
    rcases hany : (l.any fun f => f.testBit j) with _ | _
    · simp
    · obtain ⟨f, hfl, hfb⟩ := List.any_eq_true.mp hany
      obtain ⟨i, hi, rfl⟩ := single_eq_two_pow (hs f hfl)
      have hji : j = i := by
        rw [Nat.testBit_two_pow] at hfb
        exact (decide_eq_true_eq.mp hfb).symm
      subst hji
      have hHas := hd _ hfl
      rw [Tag.Has, contains_single hv hi] at hHas
      simp only [Bool.or_true, Bool.not_true, Bool.and_false]
      exact hHas.symm
  rw [hAdd]
  show Tag.deleteLoop (unionFold t l) (unionFold t l) l = ⟨t, t, none⟩
  rw [hres, hst]

/-- C2 witness: starting value `Array`, flags `[Nil, Pointer]` (valid,
single, disjoint from the start); the round trip restores `Array`. -/
theorem claim_C2_add_delete_witness :
    (Tag.IsValid Tag.array = true ∧
     (∀ f ∈ [Tag.nil, Tag.pointer], Tag.IsSingle f = true) ∧
     (∀ f ∈ [Tag.nil, Tag.pointer], Tag.Has Tag.array f = false)) ∧
    Tag.Delete (Tag.Add Tag.array [Tag.nil, Tag.pointer]).state
        [Tag.nil, Tag.pointer]
      = ⟨Tag.array, Tag.array, none⟩ :=
  ⟨⟨by decide, by decide, by decide⟩,
   claim_C2_add_delete Tag.array [Tag.nil, Tag.pointer]
     (by decide) (by decide) (by decide)⟩

/-- C4 counterexample: `Set` on receiver `0` with flags `[Nil, overflow]`
errors, but the Tag value returned alongside the error is the receiver's
original value `0`, not the value `Nil` accumulated from the valid flags
preceding the invalid one; and a zero flag (which the claim calls invalid)
is not rejected at all: `Add(0)` returns no error and leaves the value
unchanged. -/
theorem claim_C4_counterexample :
    (Tag.IsValid Tag.nil = true ∧ Tag.IsValid overflowTagValue = false) ∧
    (Tag.Set 0 [Tag.nil, overflowTagValue]).err.isSome = true ∧
    (Tag.Set 0 [Tag.nil, overflowTagValue]).ret = 0 ∧
    (Tag.Set 0 [Tag.nil, overflowTagValue]).ret ≠ Tag.nil ∧
    (Tag.Add 5 [0]).err = none ∧
    (Tag.Add 5 [0]).state = 5 := by decide

/-- C4 amended: whenever some supplied flag fails `IsValid` (undefined bits
at or above the overflow sentinel), `Set`, `Add` and `Delete` leave the
receiver unchanged, return an error, and the Tag returned alongside the
error is the receiver's original (unchanged) value — not the value
accumulated so far; a literal zero flag, by contrast, is not rejected but
silently ignored. -/
theorem claim_C4_invalid_flag (t : Tag) (l : List Tag)
    (h : ∃ f ∈ l, Tag.IsValid f = false) :
    ((Tag.Set t l).state = t ∧ (Tag.Set t l).ret = t ∧
      (Tag.Set t l).err.isSome = true) ∧
    ((Tag.Add t l).state = t ∧ (Tag.Add t l).ret = t ∧
      (Tag.Add t l).err.isSome = true) ∧
    ((Tag.Delete t l).state = t ∧ (Tag.Delete t l).ret = t ∧
      (Tag.Delete t l).err.isSome = true) := by
  obtain ⟨m1, h1⟩ := setAddLoop_invalid l t 0 h
  obtain ⟨m2, h2⟩ := setAddLoop_invalid l t t h
  obtain ⟨m3, h3⟩ := deleteLoop_invalid l t t h
  have e1 : Tag.Set t l = ⟨t, t, some m1⟩ := h1
  have e2 : Tag.Add t l = ⟨t, t, some m2⟩ := h2
  have e3 : Tag.Delete t l = ⟨t, t, some m3⟩ := h3
  rw [e1, e2, e3]
  exact ⟨⟨rfl, rfl, rfl⟩, ⟨rfl, rfl, rfl⟩, ⟨rfl, rfl, rfl⟩⟩

/-- C4 witness: receiver `3`, flag list `[overflow]`. -/
theorem claim_C4_invalid_flag_witness :
    (∃ f ∈ [overflowTagValue], Tag.IsValid f = false) ∧
    (Tag.Set 3 [overflowTagValue]).state = 3 ∧
    (Tag.Add 3 [overflowTagValue]).ret = 3 ∧
    (Tag.Delete 3 [overflowTagValue]).err.isSome = true :=
  ⟨by decide,
   (claim_C4_invalid_flag 3 [overflowTagValue] (by decide)).1.1,
   (claim_C4_invalid_flag 3 [overflowTagValue] (by decide)).2.1.2.1,
   (claim_C4_invalid_flag 3 [overflowTagValue] (by decide)).2.2.2.2⟩

/-- C5: classifying a `[][]int32` value yields `IsSliceOfSlices() == true`,
`IsSlice() == false`, `IsInt32() == true`, `IsComplex() == true`, and
`Name() == "[][]int32"`. -/
theorem claim_C5_slice_of_slices :
    Kind.IsSliceOfSlices (Kind.Of (.vSlice (.tSlice .tInt32))) = true ∧
    Kind.IsSlice (Kind.Of (.vSlice (.tSlice .tInt32))) = false ∧
    Kind.IsInt32 (Kind.Of (.vSlice (.tSlice .tInt32))) = true ∧
    Kind.IsComplex (Kind.Of (.vSlice (.tSlice .tInt32))) = true ∧
    Kind.Name (Kind.Of (.vSlice (.tSlice .tInt32))) = "[][]int32" := by decide

/-- C10: `Set` with an empty flag list succeeds on every receiver, storing
and returning the zero Tag (all previously set categories discarded). -/
theorem claim_C10_set_empty (t : Tag) : Tag.Set t [] = ⟨0, 0, none⟩ := rfl

/-- C3 counterexample: classifying `[][5][]int32` (slice of array of slice)
sets two of the four nesting categories on the same wrapper — SliceOfArrays
at the outer step and ArrayOfSlices one level down — and classifying
`[]*[][]int` sets the plain Slice tag together with the SliceOfSlices
nesting tag; both conjuncts of the claimed mutual exclusion fail. -/
theorem claim_C3_counterexample :
    Kind.IsSliceOfArrays (Kind.Of (.vSlice (.tArray 5 (.tSlice .tInt32)))) = true ∧
    Kind.IsArrayOfSlices (Kind.Of (.vSlice (.tArray 5 (.tSlice .tInt32)))) = true ∧
    Kind.IsSlice (Kind.Of (.vSlice (.tPtr (.tSlice (.tSlice .tInt))))) = true ∧
    Kind.IsSliceOfSlices (Kind.Of (.vSlice (.tPtr (.tSlice (.tSlice .tInt))))) = true := by
  decide

/-- C3 amended: what the `multiSequence` guard actually enforces — once the
accumulated tag is valid and already holds one of the four nesting
categories, the entire remaining recursive walk never changes the plain
Slice or the plain Array tag (in particular it never adds them); multiple
nesting categories, and a plain Slice/Array tag set before the first
nesting tag, can still co-exist on one wrapper. -/
theorem claim_C3_multiSequence_guard (k : Kind) (t : GoType) (lvl : Nat)
    (hv : Tag.IsValid k.tag = true) (hm : multiSequence k.tag = true) :
    Kind.IsSlice (checkComplexTypes k t lvl) = Kind.IsSlice k ∧
    Kind.IsArray (checkComplexTypes k t lvl) = Kind.IsArray k := by
  obtain ⟨hv', hm', h5, h2⟩ := checkComplexTypes_nestPreserved t k lvl hv hm
  constructor
  · show Tag.Has (checkComplexTypes k t lvl).tag Tag.slice = Tag.Has k.tag Tag.slice
    simp only [Tag.Has, Tag.slice]
    rw [@contains_single (checkComplexTypes k t lvl).tag 5 hv' (by omega),
      @contains_single k.tag 5 hv (by omega)]
    exact h5
  · show Tag.Has (checkComplexTypes k t lvl).tag Tag.array = Tag.Has k.tag Tag.array
    simp only [Tag.Has, Tag.array]
    rw [@contains_single (checkComplexTypes k t lvl).tag 2 hv' (by omega),
      @contains_single k.tag 2 hv (by omega)]
    exact h2

/-- C3 witness: a wrapper already tagged SliceOfSlices, walked over
`[]int32`: the plain Slice and Array predicates are unchanged. -/
theorem claim_C3_multiSequence_guard_witness :
    (Tag.IsValid (Kind.mk "w" .vNil none none Tag.sliceOfSlices).tag = true ∧
     multiSequence (Kind.mk "w" .vNil none none Tag.sliceOfSlices).tag = true) ∧
    (Kind.IsSlice (checkComplexTypes (Kind.mk "w" .vNil none none Tag.sliceOfSlices)
        (.tSlice .tInt32) 0)
      = Kind.IsSlice (Kind.mk "w" .vNil none none Tag.sliceOfSlices) ∧
     Kind.IsArray (checkComplexTypes (Kind.mk "w" .vNil none none Tag.sliceOfSlices)
        (.tSlice .tInt32) 0)
      = Kind.IsArray (Kind.mk "w" .vNil none none Tag.sliceOfSlices)) :=
  ⟨⟨by decide, by decide⟩,
   claim_C3_multiSequence_guard (Kind.mk "w" .vNil none none Tag.sliceOfSlices)
     (.tSlice .tInt32) 0 (by decide) (by decide)⟩

/-- C6 counterexample: `3 = Nil+Pointer` and `2 = Pointer` both pass
`IsValid`, and `[3, 2]` is a permutation of `[2, 3]`, yet `Set` stores `3`
for the first order and `5` for the second (the `r += flag` fold carries
into an unrelated bit), so permutation invariance fails for valid
multi-bit flags. -/
theorem claim_C6_counterexample :
    (Tag.IsValid 3 = true ∧ Tag.IsValid 2 = true) ∧
    List.Perm [(3 : Tag), 2] [2, 3] ∧
    Tag.Set 0 [3, 2] = ⟨3, 3, none⟩ ∧
    Tag.Set 0 [2, 3] = ⟨5, 5, none⟩ ∧
    (Tag.Set 0 [3, 2]).state ≠ (Tag.Set 0 [2, 3]).state := by decide

/-- C6 amended: restricted to flags that are single defined bits
(`IsSingle`), `Set` is invariant under permutation and duplication of the
flag list (any two lists with the same members give identical results), the
result never depends on the receiver's prior value, the call does not
error, and the stored and returned values agree. -/
theorem claim_C6_set_permutation (t1 t2 : Tag) (l1 l2 : List Tag)
    (h1 : ∀ f ∈ l1, Tag.IsSingle f = true)
    (h2 : ∀ f ∈ l2, Tag.IsSingle f = true)
    (hmem : ∀ f, f ∈ l1 ↔ f ∈ l2) :
    Tag.Set t1 l1 = Tag.Set t2 l2 ∧ (Tag.Set t1 l1).err = none ∧
    (Tag.Set t1 l1).ret = (Tag.Set t1 l1).state := by
  have e1 : Tag.Set t1 l1 = ⟨unionFold 0 l1, unionFold 0 l1, none⟩ :=
    setAddLoop_singles l1 t1 0 h1 (by decide)
  have e2 : Tag.Set t2 l2 = ⟨unionFold 0 l2, unionFold 0 l2, none⟩ :=
    setAddLoop_singles l2 t2 0 h2 (by decide)
  have hu : unionFold 0 l1 = unionFold 0 l2 := by
    apply Nat.eq_of_testBit_eq
    intro j
    rw [unionFold_testBit, unionFold_testBit, Nat.zero_testBit,
      Bool.false_or, Bool.false_or, Bool.eq_iff_iff]
    simp only [List.any_eq_true]
    constructor
    · rintro ⟨f, hf, hb⟩; exact ⟨f, (hmem f).mp hf, hb⟩
    · rintro ⟨f, hf, hb⟩; exact ⟨f, (hmem f).mpr hf, hb⟩
  rw [e1, e2, hu]
  exact ⟨rfl, rfl, rfl⟩

/-- C6 witness: receivers `9` and `0`, lists `[Nil, Nil, Pointer]` and
`[Pointer, Nil]` (same members up to order and duplication). -/
theorem claim_C6_set_permutation_witness :
    ((∀ f ∈ [Tag.nil, Tag.nil, Tag.pointer], Tag.IsSingle f = true) ∧
     (∀ f ∈ [Tag.pointer, Tag.nil], Tag.IsSingle f = true)) ∧
    Tag.Set 9 [Tag.nil, Tag.nil, Tag.pointer] = Tag.Set 0 [Tag.pointer, Tag.nil] ∧
    (Tag.Set 9 [Tag.nil, Tag.nil, Tag.pointer]).err = none :=
  ⟨⟨by decide, by decide⟩,
   (claim_C6_set_permutation 9 0 [Tag.nil, Tag.nil, Tag.pointer]
      [Tag.pointer, Tag.nil] (by decide) (by decide)
      (by intro f; simp [List.mem_cons]; tauto)).1,
   (claim_C6_set_permutation 9 0 [Tag.nil, Tag.nil, Tag.pointer]
      [Tag.pointer, Tag.nil] (by decide) (by decide)
      (by intro f; simp [List.mem_cons]; tauto)).2.1⟩

/-- C7: on any wrapper whose tag does not report the Map category,
`MapKeyKind` and `MapValueKind` return a freshly synthesized wrapper named
"nil" whose tag is exactly the Nil flag and whose `IsNil` predicate holds —
never an absent (nil-pointer) result. -/
theorem claim_C7_non_map_children (k : Kind) (h : Tag.Has k.tag Tag.map = false) :
    Kind.Name k.MapKeyKind = "nil" ∧ Kind.IsNil k.MapKeyKind = true ∧
    k.MapKeyKind.tag = Tag.nil ∧
    Kind.Name k.MapValueKind = "nil" ∧ Kind.IsNil k.MapValueKind = true ∧
    k.MapValueKind.tag = Tag.nil := by
  unfold Kind.MapKeyKind Kind.MapValueKind
  rw [h]
  cases k.mapKeyKind <;> cases k.mapValueKind <;>
    exact show Kind.Name (Kind.mk "nil" .vNil none none Tag.nil) = "nil" ∧
        Kind.IsNil (Kind.mk "nil" .vNil none none Tag.nil) = true ∧
        (Kind.mk "nil" .vNil none none Tag.nil).tag = Tag.nil ∧
        Kind.Name (Kind.mk "nil" .vNil none none Tag.nil) = "nil" ∧
        Kind.IsNil (Kind.mk "nil" .vNil none none Tag.nil) = true ∧
        (Kind.mk "nil" .vNil none none Tag.nil).tag = Tag.nil from
      ⟨rfl, by decide, rfl, rfl, by decide, rfl⟩

/-- C7 witness: the wrapper of an `int32` scalar is not map-tagged; its
synthesized children are "nil" wrappers. -/
theorem claim_C7_non_map_children_witness :
    Tag.Has (Kind.Of (.vInt32 0)).tag Tag.map = false ∧
    Kind.Name (Kind.Of (.vInt32 0)).MapKeyKind = "nil" ∧
    Kind.IsNil (Kind.Of (.vInt32 0)).MapValueKind = true :=
  ⟨by decide,
   (claim_C7_non_map_children (Kind.Of (.vInt32 0)) (by decide)).1,
   (claim_C7_non_map_children (Kind.Of (.vInt32 0)) (by decide)).2.2.2.2.1⟩

/-- C8: `Contains` on a zero flag errors with "flag cannot be zero" on every
receiver; on a valid nonzero flag and a receiver failing `IsValid` it errors
with "the object is damaged", a message distinct from the invalid-flag
message "incorrect flag value". -/
theorem claim_C8_contains_errors :
    (∀ t : Tag, Tag.Contains t 0 = (false, some "flag cannot be zero")) ∧
    (∀ t f : Tag, f ≠ 0 → Tag.IsValid f = true → Tag.IsValid t = false →
      Tag.Contains t f = (false, some "the object is damaged")) ∧
    ("the object is damaged" : String) ≠ "incorrect flag value" := by
  refine ⟨fun t => rfl, fun t f hf hvf hvt => ?_, by decide⟩
  unfold Tag.Contains
  rw [if_neg hf, hvf, hvt]
  rfl

/-- C8 witness: receiver `5` with flag `0`; damaged receiver `overflow` with
the valid flag `Nil`. -/
theorem claim_C8_contains_errors_witness :
    Tag.Contains 5 0 = (false, some "flag cannot be zero") ∧
    ((Tag.nil : Tag) ≠ 0 ∧ Tag.IsValid Tag.nil = true ∧
     Tag.IsValid overflowTagValue = false) ∧
    Tag.Contains overflowTagValue Tag.nil = (false, some "the object is damaged") :=
  ⟨claim_C8_contains_errors.1 5,
   ⟨by decide, by decide, by decide⟩,
   claim_C8_contains_errors.2.1 overflowTagValue Tag.nil
     (by decide) (by decide) (by decide)⟩


/-- The classification of any map value tags the parent wrapper with exactly
the Map flag (children are classified onto fresh wrappers instead). -/
lemma ofMap_tag (ky vl : GoType) : (Kind.Of (.vMap ky vl)).tag = Tag.map := by
  unfold Kind.Of
  rw [if_neg (by simp : ¬(GoVal.vMap ky vl = GoVal.vNil))]
  simp only [GoVal.typeOf, checkComplexTypes, addTag]
  rfl

/-- The key child wrapper `Of` stores for a map value. -/
lemma ofMap_mapKeyKind (ky vl : GoType) :
    (Kind.Of (.vMap ky vl)).mapKeyKind
      = some (checkComplexTypes (freshKind (typeName ky)) ky 0) := by
  unfold Kind.Of
  rw [if_neg (by simp : ¬(GoVal.vMap ky vl = GoVal.vNil))]
  simp only [GoVal.typeOf, checkComplexTypes, addTag]

/-- The value child wrapper `Of` stores for a map value. -/
lemma ofMap_mapValueKind (ky vl : GoType) :
    (Kind.Of (.vMap ky vl)).mapValueKind
      = some (checkComplexTypes (freshKind (typeName vl)) vl 0) := by
  unfold Kind.Of
  rw [if_neg (by simp : ¬(GoVal.vMap ky vl = GoVal.vNil))]
  simp only [GoVal.typeOf, checkComplexTypes, addTag]


/-- On a wrapper whose tag is exactly Map and whose key child is present,
`MapKeyKind` returns the stored child. -/
lemma mapKeyKind_of_map {k c : Kind} (ht : k.tag = Tag.map)
    (hc : k.mapKeyKind = some c) : k.MapKeyKind = c := by
  unfold Kind.MapKeyKind
  rw [hc, ht, show Tag.Has Tag.map Tag.map = true from by decide]

/-- On a wrapper whose tag is exactly Map and whose value child is present,
`MapValueKind` returns the stored child. -/
lemma mapValueKind_of_map {k c : Kind} (ht : k.tag = Tag.map)
    (hc : k.mapValueKind = some c) : k.MapValueKind = c := by
  unfold Kind.MapValueKind
  rw [hc, ht, show Tag.Has Tag.map Tag.map = true from by decide]

/-- `MapKeyKind` on a classified map value returns the freshly classified
key child. -/
lemma ofMap_key (ky vl : GoType) :
    (Kind.Of (.vMap ky vl)).MapKeyKind
      = checkComplexTypes (freshKind (typeName ky)) ky 0 :=
  mapKeyKind_of_map (ofMap_tag ky vl) (ofMap_mapKeyKind ky vl)

/-- `MapValueKind` on a classified map value returns the freshly classified
value child. -/
lemma ofMap_value (ky vl : GoType) :
    (Kind.Of (.vMap ky vl)).MapValueKind
      = checkComplexTypes (freshKind (typeName vl)) vl 0 :=
  mapValueKind_of_map (ofMap_tag ky vl) (ofMap_mapValueKind ky vl)

/-- Classifying a scalar type onto a fresh child wrapper yields a tag
containing the matching scalar flag. -/
lemma child_has_scalar (st : GoType) (h : isScalarKind st = true) :
    Tag.Has (checkComplexTypes (freshKind (typeName st)) st 0).tag
      (scalarTag st) = true := by
  cases st <;> first
    | exact Bool.noConfusion h
    | decide

/-- C9: for every map value with scalar key and value types, the parent
wrapper's tag is exactly the single Map category: `IsComplex()` is false on
the parent, every scalar predicate is false on the parent, and the key and
value scalar tags appear (only) on the child wrappers returned by
`MapKeyKind()` and `MapValueKind()`. -/
theorem claim_C9_map_parent_tag (ky vl : GoType)
    (hk : isScalarKind ky = true) (hv : isScalarKind vl = true) :
    (Kind.Of (.vMap ky vl)).tag = Tag.map ∧
    Kind.IsComplex (Kind.Of (.vMap ky vl)) = false ∧
    (Kind.IsBool (Kind.Of (.vMap ky vl)) = false ∧
     Kind.IsString (Kind.Of (.vMap ky vl)) = false ∧
     Kind.IsInt (Kind.Of (.vMap ky vl)) = false ∧
     Kind.IsInt8 (Kind.Of (.vMap ky vl)) = false ∧
     Kind.IsInt16 (Kind.Of (.vMap ky vl)) = false ∧
     Kind.IsInt32 (Kind.Of (.vMap ky vl)) = false ∧
     Kind.IsInt64 (Kind.Of (.vMap ky vl)) = false ∧
     Kind.IsUint (Kind.Of (.vMap ky vl)) = false ∧
     Kind.IsUint8 (Kind.Of (.vMap ky vl)) = false ∧
     Kind.IsUint16 (Kind.Of (.vMap ky vl)) = false ∧
     Kind.IsUint32 (Kind.Of (.vMap ky vl)) = false ∧
     Kind.IsUint64 (Kind.Of (.vMap ky vl)) = false ∧
     Kind.IsUintptr (Kind.Of (.vMap ky vl)) = false ∧
     Kind.IsFloat32 (Kind.Of (.vMap ky vl)) = false ∧
     Kind.IsFloat64 (Kind.Of (.vMap ky vl)) = false ∧
     Kind.IsComplex64 (Kind.Of (.vMap ky vl)) = false ∧
     Kind.IsComplex128 (Kind.Of (.vMap ky vl)) = false) ∧
    Tag.Has ((Kind.Of (.vMap ky vl)).MapKeyKind).tag (scalarTag ky) = true ∧
    Tag.Has ((Kind.Of (.vMap ky vl)).MapValueKind).tag (scalarTag vl) = true := by
  refine ⟨ofMap_tag ky vl, ?_,
    ⟨?_, ?_, ?_, ?_, ?_, ?_, ?_, ?_, ?_, ?_, ?_, ?_, ?_, ?_, ?_, ?_, ?_⟩,
    ?_, ?_⟩
  · show Tag.IsComplex (Kind.Of (.vMap ky vl)).tag = false
    rw [ofMap_tag]
    decide
  case _ => show Tag.Has (Kind.Of (.vMap ky vl)).tag Tag.bool = false
            rw [ofMap_tag]; decide
  case _ => show Tag.Has (Kind.Of (.vMap ky vl)).tag Tag.string = false
            rw [ofMap_tag]; decide
  case _ => show Tag.Has (Kind.Of (.vMap ky vl)).tag Tag.int = false
            rw [ofMap_tag]; decide
  case _ => show Tag.Has (Kind.Of (.vMap ky vl)).tag Tag.int8 = false
            rw [ofMap_tag]; decide
  case _ => show Tag.Has (Kind.Of (.vMap ky vl)).tag Tag.int16 = false
            rw [ofMap_tag]; decide
  case _ => show Tag.Has (Kind.Of (.vMap ky vl)).tag Tag.int32 = false
            rw [ofMap_tag]; decide
  case _ => show Tag.Has (Kind.Of (.vMap ky vl)).tag Tag.int64 = false
            rw [ofMap_tag]; decide
  case _ => show Tag.Has (Kind.Of (.vMap ky vl)).tag Tag.uint = false
            rw [ofMap_tag]; decide
  case _ => show Tag.Has (Kind.Of (.vMap ky vl)).tag Tag.uint8 = false
            rw [ofMap_tag]; decide
  case _ => show Tag.Has (Kind.Of (.vMap ky vl)).tag Tag.uint16 = false
            rw [ofMap_tag]; decide
  case _ => show Tag.Has (Kind.Of (.vMap ky vl)).tag Tag.uint32 = false
            rw [ofMap_tag]; decide
  case _ => show Tag.Has (Kind.Of (.vMap ky vl)).tag Tag.uint64 = false
            rw [ofMap_tag]; decide
  case _ => show Tag.Has (Kind.Of (.vMap ky vl)).tag Tag.uintptr = false
            rw [ofMap_tag]; decide
  case _ => show Tag.Has (Kind.Of (.vMap ky vl)).tag Tag.float32 = false
            rw [ofMap_tag]; decide
  case _ => show Tag.Has (Kind.Of (.vMap ky vl)).tag Tag.float64 = false
            rw [ofMap_tag]; decide
  case _ => show Tag.Has (Kind.Of (.vMap ky vl)).tag Tag.complex64 = false
            rw [ofMap_tag]; decide
  case _ => show Tag.Has (Kind.Of (.vMap ky vl)).tag Tag.complex128 = false
            rw [ofMap_tag]; decide
  case _ => rw [ofMap_key]
            exact child_has_scalar ky hk
  case _ => rw [ofMap_value]
            exact child_has_scalar vl hv

/-- C9 witness: a map from string to int. -/
theorem claim_C9_map_parent_tag_witness :
    (isScalarKind GoType.tString = true ∧ isScalarKind GoType.tInt = true) ∧
    (Kind.Of (.vMap .tString .tInt)).tag = Tag.map ∧
    Tag.Has ((Kind.Of (.vMap .tString .tInt)).MapKeyKind).tag
      (scalarTag .tString) = true ∧
    Tag.Has ((Kind.Of (.vMap .tString .tInt)).MapValueKind).tag
      (scalarTag .tInt) = true :=
  ⟨⟨by decide, by decide⟩,
   (claim_C9_map_parent_tag .tString .tInt (by decide) (by decide)).1,
   (claim_C9_map_parent_tag .tString .tInt (by decide) (by decide)).2.2.2.1,
   (claim_C9_map_parent_tag .tString .tInt (by decide) (by decide)).2.2.2.2⟩
